import Mathlib

/-!
Verification of the Conversation Context & Resilient Completion Engine
(src/src/classes/chatgpt.ts).  The engine's data model and operations are
shallowly embedded as executable Lean definitions; external collaborators
(the `gpt-3-encoder` tokenizer, `JSON.parse`, `Math.random`, the moderation
HTTP endpoint, the filesystem, the clock) are passed in as parameters, as
the specification treats them as black boxes.  JavaScript numbers used only
for ordering are modelled as `Rat`; machine-integer overflow is irrelevant
at the magnitudes involved.
-/

namespace ChatgptPW

/-- `MessageType` enum (`src/enums/message-type.ts`).  The code compares
`message.type === 1` to detect a user message, and `message.type ===
MessageType.User` elsewhere, so `User` is the value `1`. -/
inductive MessageType
  | User
  | Assistant
deriving DecidableEq, Repr

/-- Role tag used when rendering and when archiving:
`message.type === MessageType.User ? "user" : "assistant"` (and the numeric
variant `message.type === 1 ? 'user' : 'assistant'` in
`archiveOldestMessage`). -/
def MessageType.role : MessageType → String
  | .User => "user"
  | .Assistant => "assistant"

/-- One element of a multipart message content array:
`\x7b type: 'text' | 'image_url' | 'file_url', ... \x7d`.  The second field of
`image_url` is the optional `detail` (`some "low"` in loFi mode). -/
inductive ContentPart
  | text : String → ContentPart
  | image_url : String → Option String → ContentPart
  | file_url : String → ContentPart
deriving DecidableEq, Repr

/-- Message content: either a plain string or an ordered array of parts. -/
inductive Content
  | str : String → Content
  | parts : List ContentPart → Content
deriving DecidableEq, Repr

/-- A stored conversation message (`Message` model).  The optional `usage`
metadata is not needed by any verified operation and is omitted. -/
structure Message where
  id : Nat
  content : Content
  type : MessageType
  date : Nat
deriving DecidableEq, Repr

/-- `Conversation` model: `addConversation` creates the record without a
`lastActive` field, hence the `Option`. -/
structure Conversation where
  id : String
  userName : String
  messages : List Message
  lastActive : Option Nat
deriving DecidableEq, Repr

/-- A rendered role-tagged entry sent to the remote API. -/
structure RenderedMsg where
  role : String
  content : Content
deriving DecidableEq, Repr

/-- Token count of one content value, as in `countTokens`: for an array,
only `text` parts contribute `encode(item.text).length`; otherwise
`encode(message.content).length`.  `enc` is the external `gpt-3-encoder`. -/
def contentTokens (enc : String → Nat) : Content → Nat
  | .str s => enc s
  | .parts l =>
    l.foldl (fun acc item =>
      match item with
      | .text t => acc + enc t
      | _ => acc) 0

/-- `countTokens(messages)`: sum of the per-message content token counts. -/
def countTokens (enc : String → Nat) (messages : List RenderedMsg) : Nat :=
  messages.foldl (fun acc m => acc + contentTokens enc m.content) 0

/-- Parameters of `generateMessages` that stay fixed across one
`generatePrompt` call.  `systemPrompt` is the instruction string built by
`getInstructions` (a deterministic function of the options, the user name and
the wall clock, all constant within one call); `b64` is the external
`convertImageUrlToBase64` collaborator. -/
structure RenderParams where
  systemPromptUnsupported : Bool
  systemPrompt : String
  imgUrlUnsupported : Bool
  loFi : Bool
  b64 : String → String

/-- Content rendering inside `generateMessages`: text and file parts pass
through; an image URL is converted to base64 when `imgUrlUnsupported` and it
is not already a `data:` URI, and gets `detail: 'low'` in loFi mode. -/
def renderPart (P : RenderParams) : ContentPart → ContentPart
  | .text t => .text t
  | .image_url u _ =>
    let u' := if P.imgUrlUnsupported && !u.startsWith "data:" then P.b64 u else u
    if P.loFi then .image_url u' (some "low") else .image_url u' none
  | .file_url u => .file_url u

def renderContent (P : RenderParams) : Content → Content
  | .str s => .str s
  | .parts l => .parts (l.map (renderPart P))

/-- `generateMessages(conversation, ...)`: slot 0 is the system prompt — as a
`system` entry, or, when the target model has no system role, as a synthetic
`user` entry followed by a canned `assistant` acknowledgment unless the
conversation already starts with an Assistant message; then every stored
message is rendered in order with its role tag. -/
def generateMessages (P : RenderParams) (msgs : List Message) : List RenderedMsg :=
  let header : List RenderedMsg :=
    if P.systemPromptUnsupported then
      ⟨"user", .str P.systemPrompt⟩ ::
        (if (match msgs with
             | [] => true
             | m :: _ => m.type ≠ MessageType.Assistant) then
          [⟨"assistant", .str "Instruction fully read and understood"⟩]
        else [])
    else
      [⟨"system", .str P.systemPrompt⟩]
  header ++ msgs.map (fun m => ⟨m.type.role, renderContent P m.content⟩)

/-- `totalLength` of `generatePrompt`: prompt tokens plus the configured
`max_tokens` output reservation, or the prompt tokens alone when
`max_tokens` is not set. -/
def totalLength (enc : String → Nat) (maxTok : Option Nat)
    (rendered : List RenderedMsg) : Nat :=
  match maxTok with
  | some t => countTokens enc rendered + t
  | none => countTokens enc rendered

/-- One role-tagged entry of an archive batch. -/
structure ArchEntry where
  role : String
  content : Content
deriving DecidableEq, Repr

/-- One line of the per-conversation `.jsonl` archive file:
`\x7b "messages": [...] \x7d`. -/
structure Batch where
  messages : List ArchEntry
deriving DecidableEq, Repr

/-- `archiveOldestMessage(conversation, systemInstruction, wrapMessage)`.
The archive file is modelled as its parsed list of batch lines (`[]` when the
file is absent or empty); `writeFails` models `fs.writeFileSync` throwing.
The returned `Conversation` carries the in-place mutations performed before
any throw (in the evict branch `conversation.messages.shift()` runs before
the write), and the `Except` carries the new file contents or the error the
async function rejects with.  With an empty message list the evict branch
dereferences `undefined` (`oldestMessage.type`) and rejects before writing. -/
def archiveOldestMessage (writeFails : Bool) (conv : Conversation)
    (systemInstruction : String) (wrapMessage : Bool) (file : List Batch) :
    Conversation × Except String (List Batch) :=
  let lines := file
  let archiveData : Batch := (lines.getLast?).getD ⟨[]⟩
  let archiveData : Batch :=
    if systemInstruction ≠ "" then
      let systemMessage : ArchEntry := ⟨"system", .str systemInstruction⟩
      match archiveData.messages with
      | first :: rest =>
        if first.role = "system" then ⟨systemMessage :: rest⟩
        else ⟨systemMessage :: first :: rest⟩
      | [] => ⟨[systemMessage]⟩
    else archiveData
  if wrapMessage then
    let entries := conv.messages.map (fun m => (⟨m.type.role, m.content⟩ : ArchEntry))
    let archiveData : Batch := ⟨archiveData.messages ++ entries⟩
    let lines := if lines = [] then [archiveData] else lines.dropLast ++ [archiveData]
    let lines := lines ++ [(⟨[]⟩ : Batch)]
    (conv, if writeFails then .error "EIO: write failed" else .ok lines)
  else
    match conv.messages with
    | [] =>
      (conv, .error "TypeError: cannot read properties of undefined")
    | oldest :: rest =>
      let conv' := { conv with messages := rest }
      let archiveData : Batch := ⟨archiveData.messages ++ [⟨oldest.type.role, oldest.content⟩]⟩
      let lines := if lines = [] then [archiveData] else lines.dropLast ++ [archiveData]
      (conv', if writeFails then .error "EIO: write failed" else .ok lines)

/-- The `while (totalLength > maxContextWindow)` loop of `generatePrompt`,
unrolled on explicit fuel (one unit per iteration; the source loop is
unbounded).  Each iteration calls `archiveOldestMessage(conversation,
instructions, false)` WITHOUT awaiting it, so its synchronous effects happen
(eviction, file write) and a rejection is discarded; then the messages are
re-rendered and the budget re-checked.  `none` means the loop has not exited
after `fuel` iterations. -/
def trimContextLoop (enc : String → Nat) (P : RenderParams) (instr : String)
    (writeFails : Bool) (maxTok : Option Nat) (maxCtx : Nat) :
    Nat → Conversation → List Batch →
    Option (Conversation × List Batch × List RenderedMsg)
  | 0, conv, file =>
    let messages := generateMessages P conv.messages
    if totalLength enc maxTok messages ≤ maxCtx then some (conv, file, messages)
    else none
  | fuel + 1, conv, file =>
    let messages := generateMessages P conv.messages
    if totalLength enc maxTok messages ≤ maxCtx then some (conv, file, messages)
    else
      let r := archiveOldestMessage writeFails conv instr false file
      let file' := match r.2 with
        | .ok f => f
        | .error _ => file
      trimContextLoop enc P instr writeFails maxTok maxCtx fuel r.1 file'

/-- `resetConversation(conversationId)`: when the conversation exists, the
call `await this.archiveOldestMessage(conversation, '', true)` IS awaited,
so a rejection there aborts the reset before `conversation.messages = []`;
on success the message list is cleared, `lastActive` refreshed and the
conversation saved. -/
def resetConversation (writeFails : Bool) (conv : Option Conversation)
    (file : List Batch) (now : Nat) :
    Option Conversation × Except String (List Batch) :=
  match conv with
  | none => (none, .ok file)
  | some c =>
    let r := archiveOldestMessage writeFails c "" true file
    match r.2 with
    | .ok f => (some { r.1 with messages := [], lastActive := some now }, .ok f)
    | .error e => (some r.1, .error e)

/-- `const MAX_RETRIES = 5` in `askStream`. -/
def MAX_RETRIES : Nat := 5

/-- `canRetry()`: the alternate key array is a non-empty array and the shared
retry counter is below the cap. -/
def canRetry (altPoolLen retryCount : Nat) : Bool :=
  0 < altPoolLen && retryCount < MAX_RETRIES

/-- `Math.min(1000 * Math.pow(2, retryCount - 1), 10000)`, computed after
`retryCount++`, so it is called with the incremented counter. -/
def backoffTime (retryCount : Nat) : Nat :=
  min (1000 * 2 ^ (retryCount - 1)) 10000

/-- Classified outcome of one HTTP attempt, as seen by `executeWithRetry`:
an axios error with status 500/503/429, a 2xx response whose shape carries no
content (the `choices`-without-content / `usage`-without-content retry cases
and the post-extraction empty string behave identically), some other error,
or a response whose extracted content is `content`. -/
inductive Outcome
  | s500
  | s503
  | http429
  | badShape
  | otherError (msg : String)
  | ok (content : String)
deriving DecidableEq, Repr

/-- The retry/failover skeleton of `executeWithRetry`, driven by the script
of successive attempt outcomes (one per remote call).  Returns the final
response text together with the list of backoff delays awaited (in order)
and the final value of the shared `retryCount`.  Credential re-selection and
the 429 blacklist side effect do not influence this control flow and are
modelled by the selection functions below. -/
def executeWithRetry (altPoolLen : Nat) (useAltApi : Bool) :
    Nat → List Outcome → Except String (String × List Nat × Nat)
  | _, [] => .error "no response"
  | retryCount, o :: rest =>
    match o with
    | .ok content =>
      if content = "" then
        -- empty/unrecognized content: retried with exponential backoff
        if canRetry altPoolLen retryCount then
          match executeWithRetry altPoolLen useAltApi (retryCount + 1) rest with
          | .ok (c, ds, rcF) => .ok (c, backoffTime (retryCount + 1) :: ds, rcF)
          | .error e => .error e
        else .error "Unexpected or empty response structure from API"
      else .ok (content, [], retryCount)
    | .badShape =>
      if canRetry altPoolLen retryCount then
        match executeWithRetry altPoolLen useAltApi (retryCount + 1) rest with
        | .ok (c, ds, rcF) => .ok (c, backoffTime (retryCount + 1) :: ds, rcF)
        | .error e => .error e
      else .error "Unexpected or empty response structure from API"
    | .s500 =>
      if canRetry altPoolLen retryCount then
        match executeWithRetry altPoolLen useAltApi (retryCount + 1) rest with
        | .ok (c, ds, rcF) => .ok (c, backoffTime (retryCount + 1) :: ds, rcF)
        | .error e => .error e
      else .error "HTTP 500"
    | .s503 =>
      if canRetry altPoolLen retryCount then
        match executeWithRetry altPoolLen useAltApi (retryCount + 1) rest with
        | .ok (c, ds, rcF) => .ok (c, backoffTime (retryCount + 1) :: ds, rcF)
        | .error e => .error e
      else .error "HTTP 503"
    | .http429 =>
      -- rate limit: retried with a fresh key and NO backoff delay
      if useAltApi && canRetry altPoolLen retryCount then
        executeWithRetry altPoolLen useAltApi (retryCount + 1) rest
      else .error "HTTP 429"
    | .otherError msg => .error msg

/-- Transient outcomes: all take the identical increment-then-backoff retry
branch above. -/
def isTransient : Outcome → Bool
  | .s500 => true
  | .s503 => true
  | .badShape => true
  | .ok c => c = ""
  | _ => false

/-- `moderate(prompt, key)`: the external moderation call either yields
`response.data.results` (a list of flagged booleans, of which `[0].flagged`
is read — an empty list makes that dereference throw) or throws; every throw
is caught and `false` is returned. -/
def moderate (resp : Except String (List Bool)) : Bool :=
  match resp with
  | .ok results =>
    match results.head? with
    | some flagged => flagged
    | none => false
  | .error _ => false

/-- The fixed rejection text of the moderation short-circuit. -/
def rejectionMessage : String :=
  "Your message was flagged as inappropriate and was not sent."

/-- JavaScript `s.split("")`: the array of single-character strings. -/
def jsSplitEmpty (s : String) : List String :=
  s.data.map (fun c => String.mk [c])

/-- JavaScript `for (let chunk in array)` iterates the array KEYS, i.e. the
index strings `"0"`, `"1"`, ... — not the elements. -/
def forInKeys {α : Type} (l : List α) : List String :=
  (List.range l.length).map (fun i => Nat.repr i)

/-- The top of `executeWithRetry` as entered from `askStream`: when
moderation is on and flags the prompt, the callback `data` is invoked once
per `for..in` key of `rejectionMessage.split("")` (with a fixed 100 ms wait
between invocations) and the fixed message is returned — no remote call, no
retry, no backoff.  Otherwise the retry machine consumes the script of
remote outcomes.  Result: (chunks passed to `data` by the short-circuit,
outcome of the call). -/
def askStream (moderationOn : Bool) (modResp : Except String (List Bool))
    (altPoolLen : Nat) (useAltApi : Bool) (script : List Outcome) :
    List String × Except String (String × List Nat × Nat) :=
  if moderationOn && moderate modResp then
    (forInKeys (jsSplitEmpty rejectionMessage), .ok (rejectionMessage, [], 0))
  else
    ([], executeWithRetry altPoolLen useAltApi 0 script)

/-- `getBlacklistedKeys()`: the parsed `blacklisted` array of
`./blacklisted_keys.json`, or `[]` when the file is absent or unreadable.
The file contents are passed in (`none` = absent/unreadable). -/
def getBlacklistedKeys (blacklistFile : Option (List String)) : List String :=
  match blacklistFile with
  | some l => l
  | none => []

/-- The pool choice shared by both alternate-selection functions:
`keys && keys.length > 0 ? keys : this.options.alt_api_key`. -/
def chooseAltPool (keys optAltKeys : Option (List String)) : Option (List String) :=
  match keys with
  | some l => if l.length > 0 then some l else optAltKeys
  | none => optAltKeys

/-- `apiKeys.filter(key => !blacklisted.includes(key))`. -/
def availableAltKeys (blacklisted apiKeys : List String) : List String :=
  apiKeys.filter (fun key => !blacklisted.contains key)

/-- `getRandomApiKeyWithLogging(keys?)`: choose the pool, filter out
blacklisted keys, throw when the filtered pool is empty, otherwise pick a
uniformly random available key — `Math.floor(Math.random() * length)` is
modelled by `rand % length`, covering every possible draw — and report its
index in the unfiltered array.  `(none, -1)` is the
`\x7b key: undefined, index: -1 \x7d` fallthrough (the indexing arm is
unreachable since the random index is below the length). -/
def getRandomApiKeyWithLogging (blacklisted : List String) (rand : Nat)
    (keys optAltKeys : Option (List String)) :
    Except String (Option String × Int) :=
  match chooseAltPool keys optAltKeys with
  | some apiKeys =>
    if apiKeys.length > 0 then
      if (availableAltKeys blacklisted apiKeys).length = 0 then
        .error "All provided API keys have been blacklisted due to rate limiting. No available keys for API requests."
      else
        match (availableAltKeys blacklisted apiKeys).get?
            (rand % (availableAltKeys blacklisted apiKeys).length) with
        | some selectedKey => .ok (some selectedKey, (apiKeys.indexOf selectedKey : Int))
        | none => .ok (none, -1)
    else .ok (none, -1)
  | none => .ok (none, -1)

/-- `getSequentialAltApiKey(keys?)`: choose the pool, return the key at the
stateful cursor `currentKeyIndex` and advance the cursor modulo the pool
length.  No blacklist filtering happens on this path.  Result: (returned
key, new cursor). -/
def getSequentialAltApiKey (keys optAltKeys : Option (List String))
    (currentKeyIndex : Nat) : Option String × Nat :=
  match chooseAltPool keys optAltKeys with
  | some apiKeys =>
    if apiKeys.length > 0 then
      (apiKeys.get? currentKeyIndex, (currentKeyIndex + 1) % apiKeys.length)
    else (none, currentKeyIndex)
  | none => (none, currentKeyIndex)

/-- `n` successive `getSequentialAltApiKey` calls threading the cursor, as
the cursor field `currentKeyIndex` persists across calls. -/
def seqKeyCalls (keys optAltKeys : Option (List String)) :
    Nat → Nat → List (Option String)
  | _, 0 => []
  | idx, n + 1 =>
    let r := getSequentialAltApiKey keys optAltKeys idx
    r.1 :: seqKeyCalls keys optAltKeys r.2 n

/-- `OpenAIKey` credential record.  `balance` is a JavaScript number
(`tokens / 1000 * price`); only its ordering matters here, modelled as `Rat`. -/
structure OpenAIKey where
  key : String
  queries : Nat
  tokens : Nat
  balance : Rat
deriving DecidableEq, Repr

/-- Stable ascending insertion by `balance`, modelling the
`OrderBy((x) => x.balance)` / `keys.sort((a, b) => aVal < bVal ? -1 : aVal >
bVal ? 1 : 0)` ascending stable sort used by `getOpenAIKey` (directly in
`getOrderedApiKeyAsync` of `unified-dbcontext.ts`). -/
def insertByBalance (k : OpenAIKey) : List OpenAIKey → List OpenAIKey
  | [] => [k]
  | h :: t => if k.balance < h.balance then k :: h :: t else h :: insertByBalance k t

def orderByBalance : List OpenAIKey → List OpenAIKey
  | [] => []
  | h :: t => insertByBalance h (orderByBalance t)

/-- `getOpenAIKey()`: the first credential of the pool ordered by ascending
`balance`; when that lookup yields nothing, the first credential unordered;
when the pool is empty, `throw new Error("No keys available.")`. -/
def getOpenAIKey (keys : List OpenAIKey) : Except String OpenAIKey :=
  let key := (orderByBalance keys).head?
  let key := match key with
    | none => keys.head?
    | some k => some k
  match key with
  | none => .error "No keys available."
  | some k => .ok k

/-- The default of the `userName` parameter of `getConversation` and
`addConversation`. -/
def defaultUserName : String := "User"

/-- `addConversation(conversationId, userName)`: a fresh conversation with no
messages (and no `lastActive` field). -/
def addConversation (conversationId userName : String) : Conversation :=
  { id := conversationId, userName := userName, messages := [], lastActive := none }

/-- `getConversation(conversationId, userName)`: look the id up in the
store; create the conversation when absent, otherwise refresh `lastActive`;
in BOTH cases `conversation.userName = userName` is then assigned
unconditionally.  `now` is `Date.now()`. -/
def getConversation (store : List Conversation) (conversationId userName : String)
    (now : Nat) : Conversation :=
  let conversation := store.find? (fun c => c.id == conversationId)
  match conversation with
  | none =>
    let c := addConversation conversationId userName
    { c with userName := userName }
  | some c =>
    let c := { c with lastActive := some now }
    { c with userName := userName }

/-- JavaScript `trimEnd()` on the characters of a line. -/
def jsTrimEnd (l : List Char) : List Char :=
  (l.reverse.dropWhile (fun c => c.isWhitespace)).reverse

/-- `previous.indexOf("\n")` / `previous.slice(0, eolIndex + 1)` /
`previous.slice(eolIndex + 1)` in one step: the first complete line
(including its EOL) and the remainder, or `none` when no EOL is present. -/
def breakAtEol : List Char → Option (List Char × List Char)
  | [] => none
  | c :: cs =>
    if c = '\n' then some ([c], cs)
    else
      match breakAtEol cs with
      | none => none
      | some (line, rest) => some (c :: line, rest)

/-- The literal sentinel line. -/
def doneLine : List Char := "data: [DONE]".data

/-- `line.startsWith("data: ")` on characters. -/
def startsWithChars : List Char → List Char → Bool
  | [], _ => true
  | _ :: _, [] => false
  | p :: ps, c :: cs => p = c && startsWithChars ps cs

/-- The inner `while ((eolIndex = previous.indexOf("\n")) >= 0)` loop of
`chunksToLines`: emit every complete `data: ` line (trimmed of its EOL),
skip other complete lines, and `break` — leaving `previous` untouched — on
the literal `data: [DONE]` line.  The loop consumes at least one character
per iteration, so `fuel := previous.length` fully evaluates it; the result
is the pair (lines yielded, remaining buffer). -/
def processBuffer : Nat → List Char → List (List Char) × List Char
  | 0, previous => ([], previous)
  | fuel + 1, previous =>
    match breakAtEol previous with
    | none => ([], previous)
    | some (rawLine, rest) =>
      let line := jsTrimEnd rawLine
      if line = doneLine then ([], previous)
      else
        let r := processBuffer fuel rest
        (if startsWithChars "data: ".data line then line :: r.1 else r.1, r.2)

/-- The chunk loop of `chunksToLines`: append each arriving chunk to the
carried `previous` buffer and drain the complete lines from it. -/
def chunksToLinesGo (previous : List Char) : List (List Char) → List (List Char)
  | [] => []
  | chunk :: rest =>
    let prev := previous ++ chunk
    let r := processBuffer prev.length prev
    r.1 ++ chunksToLinesGo r.2 rest

/-- `chunksToLines(chunksAsync)` over the whole list of chunks. -/
def chunksToLines (chunks : List (List Char)) : List (List Char) :=
  chunksToLinesGo [] chunks

/-- `linesToMessages`: `line.substring("data :".length)` — dropping the
6-character frame header — applied to every yielded line. -/
def linesToMessages (lines : List (List Char)) : List String :=
  lines.map (fun l => String.mk (l.drop "data :".length))

/-- `streamCompletion(data)`: the composition of the two decoders. -/
def streamCompletion (chunks : List (List Char)) : List String :=
  linesToMessages (chunksToLines chunks)

/-- The stream-consumption loop of `executeWithRetry`
(`for await (const message of this.streamCompletion(...))`): each frame is
JSON-parsed and `parsed.choices[0].delta.content` extracted — `parseDelta`
models `JSON.parse` plus that field access, `none` standing for a parse
failure (logged and skipped) or an absent content.  A truthy (non-empty)
content is forwarded to the `data` callback and appended to `responseStr`.
Result: (increments forwarded, assembled `responseStr`). -/
def consumeStream (parseDelta : String → Option String) :
    List String → List String × String
  | [] => ([], "")
  | message :: rest =>
    match parseDelta message with
    | some content =>
      if content ≠ "" then
        let r := consumeStream parseDelta rest
        (content :: r.1, content ++ r.2)
      else consumeStream parseDelta rest
    | none => consumeStream parseDelta rest

/-- Behaviour of `JSON.parse(message)` followed by
`parsed.choices[0].delta.content` on the two concrete frames of the
specification's streaming example (the JSON collaborator evaluated at those
inputs). -/
def exampleParse (s : String) : Option String :=
  if s = "\x7b\"choices\":[\x7b\"delta\":\x7b\"content\":\"Hi\"\x7d\x7d]\x7d" then some "Hi"
  else if s = "\x7b\"choices\":[\x7b\"delta\":\x7b\"content\":\"!\"\x7d\x7d]\x7d" then some "!"
  else none

/-- The three frames of the specification's streaming example, as the byte
chunks fed to `chunksToLines`. -/
def exampleChunks : List (List Char) :=
  [("data: \x7b\"choices\":[\x7b\"delta\":\x7b\"content\":\"Hi\"\x7d\x7d]\x7d\n").data,
   ("data: \x7b\"choices\":[\x7b\"delta\":\x7b\"content\":\"!\"\x7d\x7d]\x7d\n").data,
   ("data: [DONE]\n").data]

/-! ### Helper lemmas -/

/-- In the evict branch, the conversation returned by `archiveOldestMessage`
has lost exactly its oldest message, whether or not the write succeeds. -/
theorem archiveOldestMessage_evict_fst (wf : Bool) (conv : Conversation)
    (instr : String) (file : List Batch) (m : Message) (rest : List Message)
    (h : conv.messages = m :: rest) :
    (archiveOldestMessage wf conv instr false file).1 = { conv with messages := rest } := by
  simp [archiveOldestMessage, h]

/-- The conversation component of an eviction does not depend on the
filesystem state, the instruction, or whether the write throws. -/
theorem archiveOldestMessage_fst_indep (wf wf' : Bool) (conv : Conversation)
    (instr instr' : String) (file file' : List Batch) :
    (archiveOldestMessage wf conv instr false file).1 =
      (archiveOldestMessage wf' conv instr' false file').1 := by
  cases h : conv.messages <;> simp [archiveOldestMessage, h]

/-- The conversation and rendered-message components of the trimming loop do
not depend on whether the archive writes throw, nor on the archive file
contents: the un-awaited archive call cannot abort or alter the trim. -/
theorem trimContextLoop_proj_indep (enc : String → Nat) (P : RenderParams)
    (instr : String) (maxTok : Option Nat) (maxCtx : Nat) :
    ∀ (fuel : Nat) (conv : Conversation) (file₁ file₂ : List Batch),
      (trimContextLoop enc P instr true maxTok maxCtx fuel conv file₁).map
          (fun r => (r.1, r.2.2)) =
        (trimContextLoop enc P instr false maxTok maxCtx fuel conv file₂).map
          (fun r => (r.1, r.2.2)) := by
  intro fuel
  induction fuel with
  | zero =>
    intro conv file₁ file₂
    by_cases hg : totalLength enc maxTok (generateMessages P conv.messages) ≤ maxCtx <;>
      simp [trimContextLoop, hg]
  | succ fuel ih =>
    intro conv file₁ file₂
    by_cases hg : totalLength enc maxTok (generateMessages P conv.messages) ≤ maxCtx
    · simp [trimContextLoop, hg]
    · have hfst := archiveOldestMessage_fst_indep true false conv instr instr file₁ file₂
      simp only [trimContextLoop, hg, if_false]
      rw [hfst]
      exact ih _ _ _

/-! ### C2 -/

/-- C2 counterexample: with one live message and a throwing archive write,
the eviction still removes the message from the live conversation — the live
message list is NOT unaffected when the archive write throws — and the
awaited archive call inside `resetConversation` propagates the failure, so
reset is aborted rather than completed. -/
theorem c2_counterexample :
    archiveOldestMessage true ⟨"c", "User", [⟨0, .str "hello", .User, 0⟩], none⟩ "" false [] =
      (⟨"c", "User", [], none⟩, .error "EIO: write failed") ∧
    resetConversation true (some ⟨"c", "User", [⟨0, .str "hello", .User, 0⟩], none⟩) [] 7 =
      (some ⟨"c", "User", [⟨0, .str "hello", .User, 0⟩], none⟩, .error "EIO: write failed") :=
  ⟨rfl, rfl⟩

/-- C2 (amended): when the archive write throws, (1) an eviction still
returns the conversation with its oldest message removed together with the
error — the failure is neither caught nor logged, and the live list is
already mutated; (2) `resetConversation` awaits the archive call, so the
failure aborts the reset and the message list is left UNCLEARED (unchanged);
(3) the trimming loop of `generatePrompt` does not await the call, so its
result on the live conversation and rendered messages is identical to the
no-failure run — generatePrompt is not aborted. -/
theorem c2_archive_failure_semantics :
    (∀ (conv : Conversation) (instr : String) (file : List Batch)
        (m : Message) (rest : List Message),
        conv.messages = m :: rest →
        archiveOldestMessage true conv instr false file =
          ({ conv with messages := rest }, .error "EIO: write failed"))
    ∧ (∀ (conv : Conversation) (file : List Batch) (now : Nat),
        resetConversation true (some conv) file now =
          (some conv, .error "EIO: write failed"))
    ∧ (∀ (enc : String → Nat) (P : RenderParams) (instr : String)
        (maxTok : Option Nat) (maxCtx fuel : Nat) (conv : Conversation)
        (file : List Batch),
        (trimContextLoop enc P instr true maxTok maxCtx fuel conv file).map
            (fun r => (r.1, r.2.2)) =
          (trimContextLoop enc P instr false maxTok maxCtx fuel conv file).map
            (fun r => (r.1, r.2.2))) := by
  refine ⟨?_, ?_, ?_⟩
  · intro conv instr file m rest h
    simp [archiveOldestMessage, h]
  · intro conv file now
    simp [resetConversation, archiveOldestMessage]
  · intro enc P instr maxTok maxCtx fuel conv file
    exact trimContextLoop_proj_indep enc P instr maxTok maxCtx fuel conv file file

/-- C2 witness: the amended statement applied to a one-message conversation. -/
theorem c2_witness :
    archiveOldestMessage true ⟨"d", "U", [⟨1, .str "x", .Assistant, 3⟩], none⟩ "sys" false [] =
      (⟨"d", "U", [], none⟩, .error "EIO: write failed") :=
  c2_archive_failure_semantics.1 ⟨"d", "U", [⟨1, .str "x", .Assistant, 3⟩], none⟩
    "sys" [] ⟨1, .str "x", .Assistant, 3⟩ [] rfl

/-! ### C5 -/

/-- C5: when moderation flags the prompt, `askStream` short-circuits —
returns the fixed rejection message with no retry, no backoff and no remote
call — but the chunks passed to the streaming callback are the `for..in`
KEYS of `rejectionMessage.split("")`, i.e. the index strings "0", "1", ...,
not the characters of the message. -/
theorem c5_moderation_short_circuit :
    (∀ (modResp : Except String (List Bool)) (alt : Nat) (u : Bool)
        (script : List Outcome),
        moderate modResp = true →
        askStream true modResp alt u script =
          (forInKeys (jsSplitEmpty rejectionMessage), .ok (rejectionMessage, [], 0)))
    ∧ forInKeys (jsSplitEmpty rejectionMessage) ≠ jsSplitEmpty rejectionMessage
    ∧ (forInKeys (jsSplitEmpty rejectionMessage)).head? = some "0"
    ∧ (jsSplitEmpty rejectionMessage).head? = some "Y" := by
  refine ⟨?_, by decide, by decide, by decide⟩
  intro modResp alt u script h
  simp [askStream, h]

/-- C5 witness: a flagged moderation response short-circuits independently of
the remote script. -/
theorem c5_witness :
    askStream true (.ok [true]) 1 false [.s500, .ok "x"] =
      (forInKeys (jsSplitEmpty rejectionMessage), .ok (rejectionMessage, [], 0)) :=
  c5_moderation_short_circuit.1 (.ok [true]) 1 false [.s500, .ok "x"] rfl

/-! ### C9 -/

/-- C9: a throwing moderation call yields `false` (fail-open), and
`askStream` with a failing moderation service proceeds to the remote
completion call exactly as if the prompt were not flagged. -/
theorem c9_moderation_fail_open :
    (∀ e : String, moderate (.error e) = false)
    ∧ (∀ (e : String) (moderationOn : Bool) (alt : Nat) (u : Bool)
        (script : List Outcome),
        askStream moderationOn (.error e) alt u script =
          ([], executeWithRetry alt u 0 script)) := by
  refine ⟨fun e => rfl, ?_⟩
  intro e moderationOn alt u script
  simp [askStream, moderate]

/-! ### C10 -/

/-- C10: `getConversation` unconditionally overwrites `userName` with the
supplied value; for an existing conversation every other field except
`lastActive` (refreshed to now) is unchanged, and for an unknown id a fresh
conversation is created; the omitted-`userName` default is "User". -/
theorem c10_username_overwrite (store : List Conversation)
    (conversationId userName : String) (now : Nat) :
    (∀ c, store.find? (fun x => x.id == conversationId) = some c →
        getConversation store conversationId userName now =
          { c with userName := userName, lastActive := some now })
    ∧ (store.find? (fun x => x.id == conversationId) = none →
        getConversation store conversationId userName now =
          addConversation conversationId userName)
    ∧ defaultUserName = "User" := by
  refine ⟨?_, ?_, rfl⟩
  · intro c h
    simp [getConversation, h]
  · intro h
    simp [getConversation, h, addConversation]

/-- C10 witness: an existing conversation keeps its id and messages, gets
`lastActive` refreshed, and has its stored `userName` overwritten. -/
theorem c10_witness :
    getConversation [⟨"c1", "Bob", [⟨0, .str "hello", .User, 0⟩], some 5⟩]
        "c1" "Alice" 42 =
      ⟨"c1", "Alice", [⟨0, .str "hello", .User, 0⟩], some 42⟩ :=
  (c10_username_overwrite [⟨"c1", "Bob", [⟨0, .str "hello", .User, 0⟩], some 5⟩]
      "c1" "Alice" 42).1 ⟨"c1", "Bob", [⟨0, .str "hello", .User, 0⟩], some 5⟩ (by decide)

/-! ### C1 -/

/-- C1 counterexample: the loop guard tests only the token budget, never
whether messages remain.  With zero stored messages and a system instruction
that alone exceeds the budget (here: one token per character, instruction of
10 tokens, window of 5, no `max_tokens`), the loop does NOT exit after
`|messages| = 0` iterations — nor after 100: each iteration leaves the empty
list unchanged (the eviction's `shift()` of an empty array yields `undefined`
and the un-awaited call rejects), so the budget check never changes and the
oversized system instruction is never sent. -/
theorem c1_counterexample :
    trimContextLoop String.length ⟨false, "0123456789", false, false, fun u => u⟩
        "" false none 5 0 ⟨"c", "User", [], none⟩ [] = none ∧
    trimContextLoop String.length ⟨false, "0123456789", false, false, fun u => u⟩
        "" false none 5 100 ⟨"c", "User", [], none⟩ [] = none :=
  ⟨rfl, rfl⟩

/-- C1 (amended): trimming never increases the message count, each iteration
evicts exactly the oldest message (the result is a suffix `drop k` of the
original list with `k ≤ |messages|`), and the loop terminates within
`|messages|` iterations PROVIDED the rendering with every message evicted
fits the budget; when even the empty rendering exceeds the budget the loop
never exits (see the counterexample). -/
theorem c1_trim_monotone_terminates (enc : String → Nat) (P : RenderParams)
    (instr : String) (wf : Bool) (maxTok : Option Nat) (maxCtx : Nat)
    (h1 : totalLength enc maxTok (generateMessages P []) ≤ maxCtx) :
    ∀ (fuel : Nat) (conv : Conversation) (file : List Batch),
      conv.messages.length ≤ fuel →
      ∃ (k : Nat) (file' : List Batch), k ≤ conv.messages.length ∧
        trimContextLoop enc P instr wf maxTok maxCtx fuel conv file =
          some ({ conv with messages := conv.messages.drop k }, file',
            generateMessages P (conv.messages.drop k)) := by
  intro fuel
  induction fuel with
  | zero =>
    intro conv file hlen
    have hm : conv.messages = [] := List.eq_nil_of_length_eq_zero (Nat.le_zero.mp hlen)
    have hg : totalLength enc maxTok (generateMessages P conv.messages) ≤ maxCtx := by
      rw [hm]; exact h1
    exact ⟨0, file, Nat.zero_le _, by simp [trimContextLoop, hg]⟩
  | succ fuel ih =>
    intro conv file hlen
    by_cases hg : totalLength enc maxTok (generateMessages P conv.messages) ≤ maxCtx
    · exact ⟨0, file, Nat.zero_le _, by simp [trimContextLoop, hg]⟩
    · cases hm : conv.messages with
      | nil =>
        rw [hm] at hg
        exact absurd h1 hg
      | cons m rest =>
        have hfst := archiveOldestMessage_evict_fst wf conv instr file m rest hm
        have hrest : ({ conv with messages := rest } : Conversation).messages.length ≤ fuel := by
          have := hlen
          rw [hm] at this
          simpa using Nat.lt_succ_iff.mp (Nat.lt_of_lt_of_le (Nat.lt_succ_self _) this)
        obtain ⟨k, file'', hk, hres⟩ :=
          ih { conv with messages := rest }
            (match (archiveOldestMessage wf conv instr false file).2 with
              | .ok f => f
              | .error _ => file) hrest
        refine ⟨k + 1, file'', ?_, ?_⟩
        · have hk' : k ≤ rest.length := by simpa using hk
          simpa using Nat.succ_le_succ hk'
        · have hstep : trimContextLoop enc P instr wf maxTok maxCtx (fuel + 1) conv file =
              trimContextLoop enc P instr wf maxTok maxCtx fuel
                ((archiveOldestMessage wf conv instr false file).1)
                (match (archiveOldestMessage wf conv instr false file).2 with
                  | .ok f => f
                  | .error _ => file) := by
            simp only [trimContextLoop, hg, if_false]
          rw [hstep, hfst, hres]
          simp

/-- C1 witness for the amended statement: a one-message conversation whose
message pushes the prompt over a 10-token window while the bare instruction
fits; one iteration evicts it and the loop exits. -/
theorem c1_witness :
    ∃ (k : Nat) (file' : List Batch), k ≤ 1 ∧
      trimContextLoop String.length ⟨false, "ab", false, false, fun u => u⟩
          "" false none 10 1 ⟨"c", "User", [⟨0, .str "a long message", .User, 0⟩], none⟩ [] =
        some ({ (⟨"c", "User", [⟨0, .str "a long message", .User, 0⟩], none⟩ : Conversation) with
            messages := ([⟨0, .str "a long message", .User, 0⟩] : List Message).drop k }, file',
          generateMessages ⟨false, "ab", false, false, fun u => u⟩
            (([⟨0, .str "a long message", .User, 0⟩] : List Message).drop k)) :=
  c1_trim_monotone_terminates String.length ⟨false, "ab", false, false, fun u => u⟩
    "" false none 10 (by decide) 1
    ⟨"c", "User", [⟨0, .str "a long message", .User, 0⟩], none⟩ [] (by decide)

/-! ### C4 -/

/-- C4 counterexample: with `k2` blacklisted (the blacklist file holding
exactly `["k2"]`), sequential-mode selection over the pool `["k2"]` still
returns `k2` — it neither filters the blacklist nor fails, contradicting the
claim for sequential mode. -/
theorem c4_counterexample :
    (getSequentialAltApiKey (some ["k2"]) none 0).1 = some "k2" ∧
    "k2" ∈ getBlacklistedKeys (some ["k2"]) := by
  decide

/-- C4 (amended): random-mode selection filters the pool against the
blacklist before drawing, so it never returns a blacklisted key, and fails
with the all-blacklisted error when filtering empties the pool; sequential
mode (`getSequentialAltApiKey`) performs no blacklist filtering at all and
can return a blacklisted key. -/
theorem c4_blacklist_filtering :
    (∀ (blacklisted : List String) (rand : Nat) (keys optAlt : Option (List String))
        (k : String) (i : Int),
        getRandomApiKeyWithLogging blacklisted rand keys optAlt = .ok (some k, i) →
        blacklisted.contains k = false)
    ∧ (∀ (blacklisted : List String) (rand : Nat) (l : List String)
        (optAlt : Option (List String)),
        l ≠ [] → (∀ k ∈ l, blacklisted.contains k = true) →
        getRandomApiKeyWithLogging blacklisted rand (some l) optAlt =
          .error "All provided API keys have been blacklisted due to rate limiting. No available keys for API requests.")
    ∧ (getSequentialAltApiKey (some ["k1", "k2", "k3"]) none 1).1 = some "k2" := by
  refine ⟨?_, ?_, by decide⟩
  · intro blacklisted rand keys optAlt k i h
    unfold getRandomApiKeyWithLogging at h
    split at h
    · rename_i apiKeys heq
      split at h
      · rename_i hlen
        split at h
        · simp at h
        · rename_i hz
          split at h
          · rename_i selectedKey hget
            simp only [Except.ok.injEq, Prod.mk.injEq, Option.some.injEq] at h
            obtain ⟨hk', -⟩ := h
            have hmem : selectedKey ∈ availableAltKeys blacklisted apiKeys :=
              List.get?_mem hget
            rw [hk'] at hmem
            have hmem' : k ∈ apiKeys ∧ k ∉ blacklisted := by
              simpa [availableAltKeys] using hmem
            simpa using hmem'.2
          · simp at h
      · simp at h
    · simp at h
  · intro blacklisted rand l optAlt hne hall
    have hlen : l.length > 0 := List.length_pos.mpr hne
    have hfilter : availableAltKeys blacklisted l = [] := by
      rw [availableAltKeys, List.filter_eq_nil_iff]
      intro a ha
      have := hall a ha
      simp at this
      simp [this]
    unfold getRandomApiKeyWithLogging
    have hpool : chooseAltPool (some l) optAlt = some l := by
      simp [chooseAltPool, hlen]
    rw [hpool]
    simp only [hfilter, if_pos hlen]
    rfl

/-- C4 witness: a pool consisting solely of the blacklisted key fails with
the all-blacklisted error in random mode. -/
theorem c4_witness :
    getRandomApiKeyWithLogging ["k2"] 0 (some ["k2"]) none =
      .error "All provided API keys have been blacklisted due to rate limiting. No available keys for API requests." :=
  c4_blacklist_filtering.2.1 ["k2"] 0 ["k2"] none (by decide) (by decide)

/-! ### C8 -/

/-- Round-robin invariant: starting from a cursor of the form `i % |pool|`,
`n` successive sequential selections return the pool entries at positions
`i % |pool|`, `(i+1) % |pool|`, ... and leave the cursor at `(i+n) % |pool|`
— the cursor wraps modulo the pool length. -/
theorem seqKeyCalls_mod (l : List String) (opt : Option (List String))
    (hl : l ≠ []) :
    ∀ (n i : Nat), seqKeyCalls (some l) opt (i % l.length) n =
      (List.range' i n).map (fun j => l.get? (j % l.length)) := by
  have hlen : l.length > 0 := List.length_pos.mpr hl
  have hpool : chooseAltPool (some l) opt = some l := by
    simp [chooseAltPool, hlen]
  intro n
  induction n with
  | zero => intro i; rfl
  | succ n ih =>
    intro i
    have hstep : getSequentialAltApiKey (some l) opt (i % l.length) =
        (l.get? (i % l.length), (i % l.length + 1) % l.length) := by
      simp [getSequentialAltApiKey, hpool, hlen]
    have hmod : (i % l.length + 1) % l.length = (i + 1) % l.length := by
      conv_rhs => rw [Nat.add_mod]
      conv_lhs => rw [Nat.add_mod]
      rw [Nat.mod_mod_of_dvd i (dvd_refl l.length)]
    rw [seqKeyCalls, hstep]
    simp only [hmod]
    rw [ih (i + 1), List.range'_succ]
    rfl

/-- C8: in sequential mode the selection round-robins through the pool with
the persistent cursor — the `n`-th call (0-based, fresh cursor) returns the
pool entry at `n mod |pool|` — and over `[k1,k2,k3]` four successive calls
yield `k1,k2,k3,k1`. -/
theorem c8_round_robin (l : List String) (opt : Option (List String))
    (hl : l ≠ []) :
    (∀ n : Nat, seqKeyCalls (some l) opt 0 n =
       (List.range n).map (fun j => l.get? (j % l.length)))
    ∧ seqKeyCalls (some ["k1", "k2", "k3"]) none 0 4 =
        [some "k1", some "k2", some "k3", some "k1"] := by
  refine ⟨?_, by decide⟩
  intro n
  have := seqKeyCalls_mod l opt hl n 0
  rw [Nat.zero_mod] at this
  rw [this, List.range_eq_range']

/-- C8 witness: the four-call example via the theorem. -/
theorem c8_witness :
    seqKeyCalls (some ["k1", "k2", "k3"]) none 0 4 =
      [some "k1", some "k2", some "k3", some "k1"] :=
  (c8_round_robin ["k1", "k2", "k3"] none (by decide)).2

/-! ### C3 -/

/-- A run of transient failures followed by a non-empty success: starting
from counter `rc` with `rc + |ts| ≤ 5`, every transient outcome increments
the shared counter and waits `backoffTime` of the new counter value, and the
success content is returned with the delays `backoffTime (rc+1), ...,
backoffTime (rc+|ts|)` in order. -/
theorem executeWithRetry_transient_run (alt : Nat) (u : Bool) (c : String)
    (hc : c ≠ "") (halt : 0 < alt) :
    ∀ (ts : List Outcome) (rc : Nat) (rest : List Outcome),
      (∀ o ∈ ts, isTransient o = true) → rc + ts.length ≤ MAX_RETRIES →
      executeWithRetry alt u rc (ts ++ .ok c :: rest) =
        .ok (c, (List.range' (rc + 1) ts.length).map backoffTime, rc + ts.length) := by
  intro ts
  induction ts with
  | nil =>
    intro rc rest _ _
    simp [executeWithRetry, hc]
  | cons t ts ih =>
    intro rc rest hall hlen
    have hrc : rc < MAX_RETRIES := by
      simp only [List.length_cons] at hlen
      omega
    have hcan : canRetry alt rc = true := by
      simp [canRetry, halt, hrc]
    have hrec := ih (rc + 1) rest (fun o ho => hall o (List.mem_cons_of_mem t ho))
      (by simp only [List.length_cons] at hlen; omega)
    have hlist : (t :: ts) ++ .ok c :: rest = t :: (ts ++ .ok c :: rest) := rfl
    have htail : backoffTime (rc + 1) ::
        (List.range' (rc + 1 + 1) ts.length).map backoffTime =
        (List.range' (rc + 1) (ts.length + 1)).map backoffTime := by
      rw [List.range'_succ]
      rfl
    have ht := hall t (List.mem_cons_self t ts)
    cases t with
    | s500 =>
      rw [hlist]
      simp only [executeWithRetry, hcan, if_true, hrec]
      simp only [List.length_cons, ← htail]
      have harith : rc + 1 + ts.length = rc + (ts.length + 1) := by omega
      rw [harith]
    | s503 =>
      rw [hlist]
      simp only [executeWithRetry, hcan, if_true, hrec]
      simp only [List.length_cons, ← htail]
      have harith : rc + 1 + ts.length = rc + (ts.length + 1) := by omega
      rw [harith]
    | badShape =>
      rw [hlist]
      simp only [executeWithRetry, hcan, if_true, hrec]
      simp only [List.length_cons, ← htail]
      have harith : rc + 1 + ts.length = rc + (ts.length + 1) := by omega
      rw [harith]
    | ok c' =>
      have hc' : c' = "" := by simpa [isTransient] using ht
      subst hc'
      rw [hlist]
      simp only [executeWithRetry, if_pos rfl, hcan, if_true, hrec]
      simp only [List.length_cons, ← htail]
      have harith : rc + 1 + ts.length = rc + (ts.length + 1) := by omega
      rw [harith]
    | http429 => simp [isTransient] at ht
    | otherError m => simp [isTransient] at ht

/-- The shared retry counter never exceeds the cap: any successful run
starting at `rc ≤ 5` ends with a final counter `≤ 5`, having performed
`rcF - rc` retries, of which the backoff delays are a subset. -/
theorem executeWithRetry_counter_cap (alt : Nat) (u : Bool) :
    ∀ (script : List Outcome) (rc : Nat) (r : String) (ds : List Nat) (rcF : Nat),
      rc ≤ MAX_RETRIES →
      executeWithRetry alt u rc script = .ok (r, ds, rcF) →
      rcF ≤ MAX_RETRIES ∧ rc + ds.length ≤ rcF := by
  intro script
  induction script with
  | nil =>
    intro rc r ds rcF _ h
    simp [executeWithRetry] at h
  | cons o rest ih =>
    intro rc r ds rcF hrc h
    have hcases : canRetry alt rc = true → rc + 1 ≤ MAX_RETRIES := by
      intro h5
      have : rc < MAX_RETRIES := by
        simp [canRetry] at h5
        exact h5.2
      omega
    cases o with
    | ok content =>
      by_cases hce : content = ""
      · subst hce
        simp only [executeWithRetry, if_pos rfl] at h
        by_cases hcan : canRetry alt rc = true
        · rw [if_pos hcan] at h
          rcases hrec : executeWithRetry alt u (rc + 1) rest with e | ⟨v1, v2, v3⟩
          · rw [hrec] at h
            simp at h
          · rw [hrec] at h
            simp only [Except.ok.injEq, Prod.mk.injEq] at h
            obtain ⟨h1, h2, h3⟩ := h
            obtain ⟨hA, hB⟩ := ih (rc + 1) r v2 rcF (hcases hcan) hrec
            refine ⟨hA, ?_⟩
            simp only [List.length_cons]
            omega
        · rw [if_neg hcan] at h
          simp at h
      · simp only [executeWithRetry, if_neg hce] at h
        simp only [Except.ok.injEq, Prod.mk.injEq] at h
        obtain ⟨h1, h2, h3⟩ := h
        subst h3
        subst h2
        exact ⟨hrc, by simp⟩
    | badShape =>
      simp only [executeWithRetry] at h
      by_cases hcan : canRetry alt rc = true
      · rw [if_pos hcan] at h
        rcases hrec : executeWithRetry alt u (rc + 1) rest with e | ⟨v1, v2, v3⟩
        · rw [hrec] at h
          simp at h
        · rw [hrec] at h
          simp only [Except.ok.injEq, Prod.mk.injEq] at h
          obtain ⟨h1, h2, h3⟩ := h
          obtain ⟨hA, hB⟩ := ih (rc + 1) v1 v2 v3 (hcases hcan) hrec
          subst h3
          rw [← h2]
          refine ⟨hA, ?_⟩
          simp only [List.length_cons]
          omega
      · rw [if_neg hcan] at h
        simp at h
    | s500 =>
      simp only [executeWithRetry] at h
      by_cases hcan : canRetry alt rc = true
      · rw [if_pos hcan] at h
        rcases hrec : executeWithRetry alt u (rc + 1) rest with e | ⟨v1, v2, v3⟩
        · rw [hrec] at h
          simp at h
        · rw [hrec] at h
          simp only [Except.ok.injEq, Prod.mk.injEq] at h
          obtain ⟨h1, h2, h3⟩ := h
          obtain ⟨hA, hB⟩ := ih (rc + 1) v1 v2 v3 (hcases hcan) hrec
          subst h3
          rw [← h2]
          refine ⟨hA, ?_⟩
          simp only [List.length_cons]
          omega
      · rw [if_neg hcan] at h
        simp at h
    | s503 =>
      simp only [executeWithRetry] at h
      by_cases hcan : canRetry alt rc = true
      · rw [if_pos hcan] at h
        rcases hrec : executeWithRetry alt u (rc + 1) rest with e | ⟨v1, v2, v3⟩
        · rw [hrec] at h
          simp at h
        · rw [hrec] at h
          simp only [Except.ok.injEq, Prod.mk.injEq] at h
          obtain ⟨h1, h2, h3⟩ := h
          obtain ⟨hA, hB⟩ := ih (rc + 1) v1 v2 v3 (hcases hcan) hrec
          subst h3
          rw [← h2]
          refine ⟨hA, ?_⟩
          simp only [List.length_cons]
          omega
      · rw [if_neg hcan] at h
        simp at h
    | http429 =>
      simp only [executeWithRetry] at h
      by_cases hcan : (u && canRetry alt rc) = true
      · rw [if_pos hcan] at h
        have hcan' : canRetry alt rc = true := (Bool.and_eq_true_iff.mp hcan).2
        obtain ⟨hA, hB⟩ := ih (rc + 1) r ds rcF (hcases hcan') h
        exact ⟨hA, by omega⟩
      · rw [if_neg hcan] at h
        simp at h
    | otherError m =>
      simp [executeWithRetry] at h

/-- C3: transient failures (HTTP 500, HTTP 503, unrecognized/empty shape)
within one call share the single retry counter capped at 5, the delay before
retry `n` is exactly `min(1000 * 2^(n-1), 10000)` ms, and any run of `k ≤ 5`
transient failures followed by a success returns the success content with
delays `min(1000*2^0,10000), ..., min(1000*2^(k-1),10000)`. -/
theorem c3_retry_backoff (alt : Nat) (u : Bool) (ts : List Outcome) (c : String)
    (hc : c ≠ "") (halt : 0 < alt) (hts : ∀ o ∈ ts, isTransient o = true)
    (hlen : ts.length ≤ 5) :
    executeWithRetry alt u 0 (ts ++ [.ok c]) =
      .ok (c, (List.range ts.length).map (fun i => min (1000 * 2 ^ i) 10000),
        ts.length)
    ∧ ∀ (script : List Outcome) (r : String) (ds : List Nat) (rcF : Nat),
        executeWithRetry alt u 0 script = .ok (r, ds, rcF) →
        rcF ≤ 5 ∧ ds.length ≤ 5 := by
  constructor
  · have h := executeWithRetry_transient_run alt u c hc halt ts 0 [] hts
      (by simpa [MAX_RETRIES] using hlen)
    simp only [Nat.zero_add] at h
    rw [h]
    have hmap : (List.range' 1 ts.length).map backoffTime =
        (List.range ts.length).map (fun i => min (1000 * 2 ^ i) 10000) := by
      rw [List.range'_eq_map_range, List.map_map]
      refine List.map_congr_left ?_
      intro a _
      simp [backoffTime, Function.comp, Nat.add_comm 1 a]
    rw [hmap]
  · intro script r ds rcF h
    obtain ⟨hA, hB⟩ := executeWithRetry_counter_cap alt u script 0 r ds rcF
      (by simp [MAX_RETRIES]) h
    simp only [MAX_RETRIES] at hA hB
    exact ⟨hA, by omega⟩

/-- C3 witness: three consecutive 503 responses then a success yield the
success content with the observed delays 1000 ms, 2000 ms, 4000 ms. -/
theorem c3_witness :
    executeWithRetry 1 false 0 [.s503, .s503, .s503, .ok "Hi"] =
      .ok ("Hi", [1000, 2000, 4000], 3) :=
  ((c3_retry_backoff 1 false [.s503, .s503, .s503] "Hi" (by decide) (by decide)
    (by decide) (by decide)).1).trans rfl

/-! ### C7 -/

/-- Membership is preserved by the balance insertion. -/
theorem mem_insertByBalance (x k : OpenAIKey) (l : List OpenAIKey) :
    x ∈ insertByBalance k l ↔ x = k ∨ x ∈ l := by
  induction l with
  | nil => simp [insertByBalance]
  | cons h t ih =>
    by_cases hlt : k.balance < h.balance
    · simp [insertByBalance, hlt]
    · simp [insertByBalance, hlt, ih]
      tauto

/-- The insertion keeps the list sorted by ascending balance. -/
theorem pairwise_insertByBalance (k : OpenAIKey) (l : List OpenAIKey)
    (hl : l.Pairwise (fun a b => a.balance ≤ b.balance)) :
    (insertByBalance k l).Pairwise (fun a b => a.balance ≤ b.balance) := by
  induction l with
  | nil => simp [insertByBalance]
  | cons h t ih =>
    rw [List.pairwise_cons] at hl
    obtain ⟨hle, ht⟩ := hl
    by_cases hlt : k.balance < h.balance
    · rw [insertByBalance, if_pos hlt, List.pairwise_cons]
      refine ⟨?_, by rw [List.pairwise_cons]; exact ⟨hle, ht⟩⟩
      intro x hx
      rcases List.mem_cons.mp hx with hx | hx
      · exact le_of_lt (hx ▸ hlt)
      · exact le_trans (le_of_lt hlt) (hle x hx)
    · rw [insertByBalance, if_neg hlt, List.pairwise_cons]
      refine ⟨?_, ih ht⟩
      intro x hx
      rcases (mem_insertByBalance x k t).mp hx with hx | hx
      · exact hx ▸ le_of_not_lt hlt
      · exact hle x hx

theorem pairwise_orderByBalance (l : List OpenAIKey) :
    (orderByBalance l).Pairwise (fun a b => a.balance ≤ b.balance) := by
  induction l with
  | nil => simp [orderByBalance]
  | cons h t ih => exact pairwise_insertByBalance h (orderByBalance t) ih

theorem mem_orderByBalance (x : OpenAIKey) (l : List OpenAIKey) :
    x ∈ orderByBalance l ↔ x ∈ l := by
  induction l with
  | nil => simp [orderByBalance]
  | cons h t ih =>
    rw [orderByBalance, mem_insertByBalance, ih, List.mem_cons]

theorem orderByBalance_ne_nil (l : List OpenAIKey) (hl : l ≠ []) :
    orderByBalance l ≠ [] := by
  cases l with
  | nil => exact absurd rfl hl
  | cons h t =>
    rw [orderByBalance]
    cases ht : orderByBalance t with
    | nil => simp [insertByBalance]
    | cons a b =>
      rw [insertByBalance]
      by_cases hlt : h.balance < a.balance <;> simp [hlt]

/-- C7: with a non-empty pool, `getOpenAIKey` returns a credential of
minimal `balance`; with an empty pool it fails with "No keys available.";
on the two-credential example pool `{A: 5, B: 2}` it returns B. -/
theorem c7_lowest_balance (keys : List OpenAIKey) :
    (keys ≠ [] → ∃ m, getOpenAIKey keys = .ok m ∧ m ∈ keys ∧
      ∀ k ∈ keys, m.balance ≤ k.balance)
    ∧ getOpenAIKey [] = .error "No keys available."
    ∧ getOpenAIKey [⟨"A", 0, 0, 5⟩, ⟨"B", 0, 0, 2⟩] = .ok ⟨"B", 0, 0, 2⟩ := by
  refine ⟨?_, rfl, rfl⟩
  intro hne
  obtain ⟨m, t, hord⟩ : ∃ m t, orderByBalance keys = m :: t := by
    cases h : orderByBalance keys with
    | nil => exact absurd h (orderByBalance_ne_nil keys hne)
    | cons m t => exact ⟨m, t, rfl⟩
  refine ⟨m, ?_, ?_, ?_⟩
  · simp [getOpenAIKey, hord]
  · exact (mem_orderByBalance m keys).mp (hord ▸ List.mem_cons_self m t)
  · intro k hk
    have hk' : k ∈ m :: t := hord ▸ (mem_orderByBalance k keys).mpr hk
    rcases List.mem_cons.mp hk' with hk' | hk'
    · exact hk' ▸ le_refl _
    · have hpw := pairwise_orderByBalance keys
      rw [hord, List.pairwise_cons] at hpw
      exact hpw.1 k hk'

/-- C7 witness: the example pool, via the theorem's universal part. -/
theorem c7_witness :
    ∃ m, getOpenAIKey [⟨"A", 0, 0, 5⟩, ⟨"B", 0, 0, 2⟩] = .ok m ∧
      m ∈ [(⟨"A", 0, 0, 5⟩ : OpenAIKey), ⟨"B", 0, 0, 2⟩] ∧
      ∀ k ∈ [(⟨"A", 0, 0, 5⟩ : OpenAIKey), ⟨"B", 0, 0, 2⟩], m.balance ≤ k.balance :=
  (c7_lowest_balance [⟨"A", 0, 0, 5⟩, ⟨"B", 0, 0, 2⟩]).1 (by decide)

/-! ### C6 -/

/-- Every line the buffer loop yields passes the `data: ` filter and is not
the `[DONE]` sentinel (which breaks the loop without being yielded). -/
theorem processBuffer_mem :
    ∀ (fuel : Nat) (prev l : List Char), l ∈ (processBuffer fuel prev).1 →
      startsWithChars "data: ".data l = true ∧ l ≠ doneLine := by
  intro fuel
  induction fuel with
  | zero =>
    intro prev l hl
    simp [processBuffer] at hl
  | succ fuel ih =>
    intro prev l hl
    simp only [processBuffer] at hl
    cases hb : breakAtEol prev with
    | none =>
      rw [hb] at hl
      simp at hl
    | some pr =>
      obtain ⟨rawLine, rest⟩ := pr
      rw [hb] at hl
      simp only at hl
      by_cases hdone : jsTrimEnd rawLine = doneLine
      · rw [if_pos hdone] at hl
        simp at hl
      · rw [if_neg hdone] at hl
        by_cases hstart : startsWithChars "data: ".data (jsTrimEnd rawLine) = true
        · rw [if_pos hstart] at hl
          rcases List.mem_cons.mp hl with hl | hl
          · exact ⟨hl ▸ hstart, hl ▸ hdone⟩
          · exact ih rest l hl
        · rw [if_neg hstart] at hl
          exact ih rest l hl

/-- The same filter property for the whole chunk stream. -/
theorem chunksToLinesGo_mem :
    ∀ (chunks : List (List Char)) (previous : List Char) (l : List Char),
      l ∈ chunksToLinesGo previous chunks →
      startsWithChars "data: ".data l = true ∧ l ≠ doneLine := by
  intro chunks
  induction chunks with
  | nil =>
    intro previous l hl
    simp [chunksToLinesGo] at hl
  | cons chunk rest ih =>
    intro previous l hl
    simp only [chunksToLinesGo] at hl
    rcases List.mem_append.mp hl with hl | hl
    · exact processBuffer_mem _ _ l hl
    · exact ih _ l hl

/-- The assembled response string is the concatenation of the forwarded
increments, in order. -/
theorem consumeStream_concat (parseDelta : String → Option String) :
    ∀ msgs : List String,
      (consumeStream parseDelta msgs).2 =
        (consumeStream parseDelta msgs).1.foldr (· ++ ·) "" := by
  intro msgs
  induction msgs with
  | nil => rfl
  | cons m rest ih =>
    cases hp : parseDelta m with
    | none =>
      simp only [consumeStream, hp]
      exact ih
    | some content =>
      by_cases hce : content ≠ ""
      · simp only [consumeStream, hp, if_pos hce, List.foldr_cons]
        rw [ih]
      · simp only [consumeStream, hp, if_neg hce]
        exact ih

/-- C6: the SSE decoder yields exactly the `data: ` lines, never the
`data: [DONE]` sentinel (which ends the stream unemitted); the consumer
forwards every non-empty delta increment and returns their concatenation;
and the specification's two-frame example emits "Hi", "!" and assembles
"Hi!". -/
theorem c6_sse_stream :
    (∀ (chunks : List (List Char)) (l : List Char), l ∈ chunksToLines chunks →
        startsWithChars "data: ".data l = true ∧ l ≠ doneLine)
    ∧ (∀ (parseDelta : String → Option String) (msgs : List String),
        (consumeStream parseDelta msgs).2 =
          (consumeStream parseDelta msgs).1.foldr (· ++ ·) "")
    ∧ consumeStream exampleParse (streamCompletion exampleChunks) =
        (["Hi", "!"], "Hi!") := by
  refine ⟨?_, ?_, rfl⟩
  · intro chunks l hl
    exact chunksToLinesGo_mem chunks [] l hl
  · intro parseDelta msgs
    exact consumeStream_concat parseDelta msgs

/-- C6 witness: on a stream containing a `data: ` line, a non-`data` line
and the sentinel, a yielded line satisfies the filter property. -/
theorem c6_witness :
    startsWithChars "data: ".data ("data: [x]".data) = true ∧
      "data: [x]".data ≠ doneLine :=
  c6_sse_stream.1 [("data: [x]\nevent: y\ndata: [DONE]\n").data]
    ("data: [x]".data) (by decide)

end ChatgptPW
